import Mathlib

/-!
Shallow embedding of the loop-invariant code motion pass in `src/p3.cpp`
(`instrIsInLoop`, `numStats`, `mLICM`, `LoopInvariantCodeMotion`,
`canMoveOutOfLoop`, and the statistics globals), together with theorems
settling the behavioural claims about it.

Machine representation: instructions are identified by numeric ids; a value
is a compile-time constant, the result of an instruction (tagged with the
defining instruction's opcode, standing for the dynamic type tests
`isa<AllocaInst>` / `cast<Instruction>`), or a function argument.  Blocks are
ordered instruction lists whose last element is the terminator.  A `Loop`
carries its full (transitive) member-block id set, its immediate sub-loops,
its optional preheader block id and its exiting block ids, exactly the data
the source reads from `LoopInfo`.  The statistics globals and the two
function-local `static` pointers of the source are threaded explicitly in
`GState`.  Undefined behaviour reachable from the source (the unchecked
`cast<Instruction>` and the unchecked `getLoopPreheader()` dereference) is
modelled by the `Crash` error of an `Except`.
-/

namespace LICM

inductive Opcode : Type where
  | load
  | store
  | call
  | alloca
  | other
deriving DecidableEq, Repr

inductive Value : Type where
  | const (id : Nat)
  | inst (id : Nat) (op : Opcode)
  | arg (id : Nat)
deriving DecidableEq, Repr

structure Instr : Type where
  id : Nat
  opcode : Opcode
  operands : List Value
  volatileFlag : Bool
  isPure : Bool
deriving DecidableEq, Repr

structure Block : Type where
  id : Nat
  instrs : List Instr
deriving DecidableEq, Repr

inductive Loop : Type where
  | mk : Nat → List Nat → List Loop → Option Nat → List Nat → Loop

def Loop.id : Loop → Nat
  | .mk i _ _ _ _ => i

def Loop.blockIds : Loop → List Nat
  | .mk _ b _ _ _ => b

def Loop.subLoops : Loop → List Loop
  | .mk _ _ s _ _ => s

def Loop.preheaderId : Loop → Option Nat
  | .mk _ _ _ p _ => p

def Loop.exitingIds : Loop → List Nat
  | .mk _ _ _ _ e => e

/-- Look a block up by id in a function body (`BasicBlock` identity). -/
def getBlock (F : List Block) (bid : Nat) : Option Block :=
  F.find? (fun b => b.id = bid)

def blockInstrs (F : List Block) (bid : Nat) : List Instr :=
  match getBlock F bid with
  | none => []
  | some b => b.instrs

/-- All instructions of the loop's member blocks in block order
(the `for bb : L->blocks() / for i : bb` double scan of the source;
the source's `if (bb->empty()) continue;` is a no-op under flattening). -/
def loopInstrs (F : List Block) (L : Loop) : List Instr :=
  (L.blockIds.map (blockInstrs F)).flatten

def findInstrInBlock (F : List Block) (bid iid : Nat) : Option Instr :=
  match getBlock F bid with
  | none => none
  | some b => b.instrs.find? (fun i => i.id = iid)

/-- `isa<Constant>(v)`. -/
def isConstantV : Value → Bool
  | .const _ => true
  | _ => false

/-- `isa<AllocaInst>(v)`: the value is the result of an alloca instruction. -/
def isAllocaV : Value → Bool
  | .inst _ op => op = Opcode.alloca
  | _ => false

/-- The statically-resolved test used throughout `canMoveOutOfLoop`:
`isa<Constant>(v) || isa<AllocaInst>(v)`. -/
def isStaticV (v : Value) : Bool :=
  isConstantV v || isAllocaV v

def Instr.isStore (i : Instr) : Bool :=
  i.opcode = Opcode.store

def Instr.isCall (i : Instr) : Bool :=
  i.opcode = Opcode.call

def Instr.isLoad (i : Instr) : Bool :=
  i.opcode = Opcode.load

/-- `I->getOperand(0)` of a load: the address operand. -/
def loadAddr (i : Instr) : Value :=
  i.operands.getD 0 (Value.const 0)

/-- `Inst->getOperand(1)` of a store: the destination address operand. -/
def storeDest (i : Instr) : Value :=
  i.operands.getD 1 (Value.const 0)

/-- `Loop::contains(Instruction*)` restricted to a block id list: the
instruction's parent block is one of the given blocks. -/
def containsInstrB (F : List Block) (bids : List Nat) (iid : Nat) : Bool :=
  bids.any (fun bid => (blockInstrs F bid).any (fun i => i.id = iid))

mutual

/-- Source `instrIsInLoop`: `loop->contains(instr)` or recursively a member
of some sub-loop. -/
def instrIsInLoop (F : List Block) : Loop → Nat → Bool
  | .mk _ bids subs _ _, iid =>
    containsInstrB F bids iid || instrIsInLoopAny F subs iid

def instrIsInLoopAny (F : List Block) : List Loop → Nat → Bool
  | [], _ => false
  | l :: ls, iid => instrIsInLoop F l iid || instrIsInLoopAny F ls iid

end

/-- The process-wide statistics counters plus the three pieces of mutable
global state of the source: the global `hasAStore`, the `static Loop *prev`
of `canMoveOutOfLoop` and the `static Loop *prevLoop` of `mLICM` (loops are
identified by their id). -/
structure GState : Type where
  numLoops : Nat
  numLoopsWithCall : Nat
  numLoopsNoLoads : Nat
  numLoopsNoStores : Nat
  licmBasic : Nat
  licmLoadHoist : Nat
  licmNoPreheader : Nat
  hasAStore : Bool
  prev : Option Nat
  prevLoop : Option Nat
deriving DecidableEq, Repr

def g0 : GState :=
  ⟨0, 0, 0, 0, 0, 0, 0, false, none, none⟩

/-- Undefined behaviour reachable from the source: an unchecked
`cast<Instruction>` applied to a non-instruction value, or dereferencing the
result of `getLoopPreheader()` when the loop has no preheader. -/
inductive Crash : Type where
  | castNonInstruction
  | nullPreheader
deriving DecidableEq, Repr

/-- The call scan of `canMoveOutOfLoop`: does any instruction of any member
block of the loop have opcode Call (early-return scan, equal to `any`). -/
def loopHasCall (F : List Block) (L : Loop) : Bool :=
  (loopInstrs F L).any Instr.isCall

/-- The store scan of the general-value branch: does the loop contain any
Store at all (early-return scan, equal to `any`). -/
def loopHasStore (F : List Block) (L : Loop) : Bool :=
  (loopInstrs F L).any Instr.isStore

/-- The exit-dominance scan of the general-value branch: some member block is
loop-exiting (`L->isLoopExiting(bb)`) and is not dominated by the block
containing the load (`!DT->dominates(I->getParent(), bb)`). -/
def failsExitDominance (dom : Nat → Nat → Bool) (L : Loop) (iParent : Nat) : Bool :=
  L.blockIds.any (fun b => L.exitingIds.contains b && !(dom iParent b))

/-- The store scan of the statically-resolved branch of `canMoveOutOfLoop`,
threading the global `hasAStore` (second component) and returning in the
first component whether the early `return false` was taken.  For each store:
if its destination is not statically resolved, set `hasAStore` (statistics
only); if its destination is exactly `addr`, set `hasAStore` and return
false. -/
def scanStoresStatic (addr : Value) : List Instr → Bool → Bool × Bool
  | [], hs => (false, hs)
  | i :: rest, hs =>
    if i.isStore then
      let hs1 := if !(isStaticV (storeDest i)) then true else hs
      if storeDest i = addr then (true, true)
      else scanStoresStatic addr rest hs1
    else scanStoresStatic addr rest hs

/-- Source `canMoveOutOfLoop(L, I, DT)`.  `iParent` is the id of the block
containing `I` (`I->getParent()`); `dom p b` is `DT->dominates(p, b)`.
Returns the legality verdict together with the updated global state; a
`Crash.castNonInstruction` is the source's unchecked `cast<Instruction>(addr)`
reached with a non-instruction address. -/
def canMoveOutOfLoop (F : List Block) (dom : Nat → Nat → Bool) (L : Loop)
    (I : Instr) (iParent : Nat) (g : GState) : Except Crash (Bool × GState) :=
  if I.volatileFlag then .ok (false, g)
  else if loopHasCall F L then
    -- statistics guard at the first call found: `prev == nullptr || prev != L`
    let g1 :=
      if g.prev ≠ some L.id then
        { g with prev := some L.id, numLoopsWithCall := g.numLoopsWithCall + 1 }
      else g
    .ok (false, g1)
  else
    let addr := loadAddr I
    if isStaticV addr then
      match scanStoresStatic addr (loopInstrs F L) g.hasAStore with
      | (true, hs) => .ok (false, { g with hasAStore := hs })
      | (false, hs) =>
        let g1 := { g with hasAStore := hs }
        if isAllocaV addr then
          match addr with
          | .inst aid _ =>
            if instrIsInLoop F L aid then .ok (false, g1) else .ok (true, g1)
          | _ => .error .castNonInstruction
        else .ok (true, g1)
    else
      if loopHasStore F L then .ok (false, { g with hasAStore := true })
      else
        match addr with
        | .inst aid _ =>
          if instrIsInLoop F L aid then .ok (false, g)
          else if failsExitDominance dom L iParent then .ok (false, g)
          else .ok (true, g)
        | _ => .error .castNonInstruction

/-- `Inst->replaceAllUsesWith(mClone)`: every operand referencing the value
defined by instruction `oldId` is redirected to `newId` (a clone has the same
opcode, so the dynamic-type tag is preserved). -/
def substVal (oldId newId : Nat) : Value → Value
  | .inst i op => if i = oldId then .inst newId op else .inst i op
  | v => v

def substOperands (oldId newId : Nat) (i : Instr) : Instr :=
  { i with operands := i.operands.map (substVal oldId newId) }

def replaceAllUsesWith (F : List Block) (oldId newId : Nat) : List Block :=
  F.map (fun b => { b with instrs := b.instrs.map (substOperands oldId newId) })

/-- `mClone->insertBefore(block(bid)->getTerminator())`: insert immediately
before the last instruction of the block. -/
def insertBeforeTerm (F : List Block) (bid : Nat) (newI : Instr) : List Block :=
  F.map (fun b =>
    if b.id = bid then
      { b with instrs := b.instrs.dropLast ++ newI :: b.instrs.getLast?.toList }
    else b)

/-- `Inst->eraseFromParent()` with `Inst` in block `bid`. -/
def eraseInstr (F : List Block) (bid iid : Nat) : List Block :=
  F.map (fun b =>
    if b.id = bid then { b with instrs := b.instrs.filter (fun i => i.id ≠ iid) }
    else b)

/-- Does any operand of `i` reference the value defined by instruction
`vid` (is `i` a user of it)? -/
def usesValue (i : Instr) (vid : Nat) : Bool :=
  i.operands.any (fun v =>
    match v with
    | .inst k _ => k = vid
    | _ => false)

/-- The user scan of `mLICM`: is some user of the value `vid` an instruction
whose parent block the loop contains (`li->contains(user->getParent())`,
early-return scan, equal to `any`)? -/
def anyUserInLoop (F : List Block) (L : Loop) (vid : Nat) : Bool :=
  F.any (fun b =>
    L.blockIds.contains b.id && b.instrs.any (fun i => usesValue i vid))

/-- Is the value available without executing an instruction of the loop
(constants and arguments always; an instruction result only when that
instruction is not a member of the loop)? -/
def operandOutsideLoop (F : List Block) (L : Loop) : Value → Bool
  | .inst iid _ => !(instrIsInLoop F L iid)
  | _ => true

/-- Modelled from the spec: the external Invariant-Operand Hoist Primitive
(`Loop::makeLoopInvariant`, not part of src/) — "given a non-memory
instruction and a loop, hoists it to the preheader if every operand is
defined outside the loop; reports whether it changed anything", restricted to
pure instructions ("hoist a pure, loop-invariant-operand instruction"); with
no preheader there is no insertion point and nothing changes.  Returns the
new function body, the primitive's return value and its `changed` flag. -/
def makeLoopInvariant (F : List Block) (L : Loop) (inst : Instr) (bid : Nat) :
    List Block × Bool × Bool :=
  match L.preheaderId with
  | none => (F, false, false)
  | some ph =>
    if inst.isPure && inst.operands.all (operandOutsideLoop F L) then
      (insertBeforeTerm (eraseInstr F bid inst.id) ph inst, true, true)
    else (F, false, false)

/-- The local state of one `mLICM` invocation: the function body, the global
state, the next fresh instruction id for clones, and the locals `mRetVal`
and `isOpt`. -/
structure MState : Type where
  F : List Block
  g : GState
  nextId : Nat
  mRetVal : Bool
  isOpt : Bool
deriving DecidableEq, Repr

/-- A fresh id: strictly larger than every instruction id of the body. -/
def freshId (F : List Block) : Nat :=
  F.foldr (fun b m => b.instrs.foldr (fun i m2 => max i.id m2) m) 0 + 1

/-- The hoist action of the load branch of `mLICM`, taken once the legality
check accepted: clone, insert the clone immediately before the preheader's
terminator, redirect every use of the original to the clone, erase the
original, `LICMLoadHoist++`; then the source's user scan over the erased
original (whose use list the redirection just emptied).  With no preheader
the source dereferences the null `getLoopPreheader()` result. -/
def hoistLoad (li : Loop) (inst : Instr) (bid : Nat) (g1 : GState)
    (st : MState) : Except Crash MState :=
  match li.preheaderId with
  | none => .error .nullPreheader
  | some ph =>
    let mClone : Instr := { inst with id := st.nextId }
    let F1 := insertBeforeTerm st.F ph mClone
    let F2 := replaceAllUsesWith F1 inst.id mClone.id
    let F3 := eraseInstr F2 bid inst.id
    let g2 := { g1 with licmLoadHoist := g1.licmLoadHoist + 1 }
    let ret := st.mRetVal || anyUserInLoop F3 li inst.id
    .ok ⟨F3, g2, st.nextId + 1, ret, true⟩

/-- One step of the instruction scan of `mLICM` (the body of the innermost
`for`).  The current instruction is looked up by id in the current body,
mirroring an iterator that survives erasure of the current element only.
In the load-hoist branch the source scans `Inst->user_begin()..user_end()`
only after `replaceAllUsesWith` and `eraseFromParent`, so that scan runs on
the (freed) original whose use list was just emptied; the embedding performs
the same post-redirection scan. -/
def processInstr (dom : Nat → Nat → Bool) (li : Loop) (bid iid : Nat)
    (st : MState) : Except Crash MState :=
  match findInstrInBlock st.F bid iid with
  | none => .ok st
  | some inst =>
    if inst.isLoad then
      match canMoveOutOfLoop st.F dom li inst bid st.g with
      | .error e => .error e
      | .ok (legal, g1) =>
        if legal then hoistLoad li inst bid g1 st
        else .ok { st with g := g1 }
    else if inst.isStore then .ok st
    else
      match makeLoopInvariant st.F li inst bid with
      | (F1, ret, changed) =>
        if ret then
          if changed then
            let g2 := { st.g with licmBasic := st.g.licmBasic + 1 }
            let r := st.mRetVal || anyUserInLoop F1 li inst.id
            .ok { st with F := F1, g := g2, mRetVal := r }
          else .ok { st with F := F1 }
        else .ok { st with F := F1 }

def processList (dom : Nat → Nat → Bool) (li : Loop) (bid : Nat) :
    List Nat → MState → Except Crash MState
  | [], st => .ok st
  | iid :: rest, st =>
    match processInstr dom li bid iid st with
    | .error e => .error e
    | .ok st1 => processList dom li bid rest st1

/-- The block scan of `mLICM`; the per-block worklist is the id list of the
block's instructions at the moment the block is reached. -/
def mLICMBlocks (dom : Nat → Nat → Bool) (li : Loop) :
    List Nat → MState → Except Crash MState
  | [], st => .ok st
  | bid :: rest, st =>
    match getBlock st.F bid with
    | none => mLICMBlocks dom li rest st
    | some bb =>
      match processList dom li bid (bb.instrs.map (fun i => i.id)) st with
      | .error e => .error e
      | .ok st1 => mLICMBlocks dom li rest st1

/-- Source `mLICM(li, mDT)`: one full hoisting pass over the loop.  Resets
the global `hasAStore`, scans every instruction of every member block, and
finally performs the `prevLoop`-guarded `NumLoopsNoStores` update.  Returns
`mRetVal`, the new body and the new global state. -/
def mLICM (dom : Nat → Nat → Bool) (li : Loop) (F : List Block) (g : GState) :
    Except Crash (Bool × List Block × GState) :=
  let gr := { g with hasAStore := false }
  match mLICMBlocks dom li li.blockIds ⟨F, gr, freshId F, false, false⟩ with
  | .error e => .error e
  | .ok st =>
    let g1 := st.g
    let g2 :=
      if g1.prevLoop ≠ some li.id then
        let g1a := { g1 with prevLoop := some li.id }
        if st.isOpt && !g1a.hasAStore then
          { g1a with numLoopsNoStores := g1a.numLoopsNoStores + 1 }
        else g1a
      else g1
    .ok (st.mRetVal, st.F, g2)

/-- The driver's `while(mLICM(li, &mDT)) mCntr++;`.  The source loop has no
bound; `fuel` bounds the number of re-iterations taken after the first call
(the run is truncated, never padded).  The third component counts how many
times `mLICM` was invoked. -/
def repeatMLICM (dom : Nat → Nat → Bool) (li : Loop) :
    Nat → List Block → GState → Except Crash (List Block × GState × Nat)
  | 0, F, g =>
    match mLICM dom li F g with
    | .error e => .error e
    | .ok (_, F1, g1) => .ok (F1, g1, 1)
  | fuel1 + 1, F, g =>
    match mLICM dom li F g with
    | .error e => .error e
    | .ok (ret, F1, g1) =>
      if ret then
        match repeatMLICM dom li fuel1 F1 g1 with
        | .error e => .error e
        | .ok (F2, g2, n) => .ok (F2, g2, n + 1)
      else .ok (F1, g1, 1)

/-- The sub-loop phase of the driver: for each immediate sub-loop,
`NumLoops++` and run `mLICM` to fixed point.  The third component is the
trace of loop ids passed to `mLICM`, one entry per invocation. -/
def processSubLoops (dom : Nat → Nat → Bool) (fuel : Nat) :
    List Loop → List Block → GState → Except Crash (List Block × GState × List Nat)
  | [], F, g => .ok (F, g, [])
  | sub :: rest, F, g =>
    let ga := { g with numLoops := g.numLoops + 1 }
    match repeatMLICM dom sub fuel F ga with
    | .error e => .error e
    | .ok (F1, g1, n) =>
      match processSubLoops dom fuel rest F1 g1 with
      | .error e => .error e
      | .ok (F2, g2, tr) => .ok (F2, g2, List.replicate n sub.id ++ tr)

/-- The per-top-level-loop body of source `LoopInvariantCodeMotion`: if the
loop has no preheader, `LICMNoPreheader++` and skip it entirely (children
included); otherwise process each immediate sub-loop to fixed point, then
`NumLoops++` and the loop itself to fixed point.  The trace records every
`mLICM` invocation by loop id. -/
def processTopLoop (dom : Nat → Nat → Bool) (fuel : Nat) (li : Loop)
    (F : List Block) (g : GState) : Except Crash (List Block × GState × List Nat) :=
  match li.preheaderId with
  | none => .ok (F, { g with licmNoPreheader := g.licmNoPreheader + 1 }, [])
  | some _ =>
    match processSubLoops dom fuel li.subLoops F g with
    | .error e => .error e
    | .ok (F1, g1, tr) =>
      let g1a := { g1 with numLoops := g1.numLoops + 1 }
      match repeatMLICM dom li fuel F1 g1a with
      | .error e => .error e
      | .ok (F2, g2, n) => .ok (F2, g2, tr ++ List.replicate n li.id)

/-- `containsLoad` of source `numStats` for one loop: some member block holds
a Load (double scan with breaks, equal to `any`). -/
def loopContainsLoad (F : List Block) (li : Loop) : Bool :=
  li.blockIds.any (fun bid => (blockInstrs F bid).any Instr.isLoad)

def numStatsLoops (F : List Block) : List Loop → GState → GState
  | [], g => g
  | li :: rest, g =>
    let g1 :=
      if !(loopContainsLoad F li) then
        { g with numLoopsNoLoads := g.numLoopsNoLoads + 1 }
      else g
    numStatsLoops F rest g1

/-- Source `numStats(M)`: for every non-empty function, walk the top-level
loops of its freshly rebuilt loop forest and count those without any Load.
A function is given as its body together with the loop forest the external
`LoopInfo` analysis produced for it.  It reads the module and returns only
the updated statistics. -/
def numStats : List (List Block × List Loop) → GState → GState
  | [], g => g
  | (F, loops) :: rest, g =>
    let g1 := if F.isEmpty then g else numStatsLoops F loops g
    numStats rest g1

mutual

/-- All loops of a subtree, the root included (spec-side collector for
"every Loop" of a forest). -/
def allLoopsOf : Loop → List Loop
  | .mk i bids subs ph ex => .mk i bids subs ph ex :: allLoopsOfList subs

def allLoopsOfList : List Loop → List Loop
  | [] => []
  | l :: ls => allLoopsOf l ++ allLoopsOfList ls

end

def descendantIds (li : Loop) : List Nat :=
  (allLoopsOfList li.subLoops).map Loop.id

/-! Spec-side definitions.  These follow the wording of the specification
(§4.1) and are compared against the embedded source functions. -/

/-- Spec: "a store's destination address is exactly the same storage location
as `addr`". -/
def isExactAliasStore (addr : Value) (i : Instr) : Bool :=
  i.isStore && decide (storeDest i = addr)

/-- Spec: "a store's destination address is not itself statically-resolved"
(the ambiguous-store observation). -/
def isAmbiguousStore (i : Instr) : Bool :=
  i.isStore && !(isStaticV (storeDest i))

def anyAmbiguousStore (F : List Block) (L : Loop) : Bool :=
  (loopInstrs F L).any isAmbiguousStore

/-- Spec §4.1, statically-resolved case: hoisting is blocked exactly when
some store in the loop's blocks targets `addr` itself, or `addr` is a
stack-local slot whose defining instruction is a member of the loop. -/
def specStaticBlocked (F : List Block) (L : Loop) (addr : Value) : Bool :=
  (loopInstrs F L).any (isExactAliasStore addr)
  || (match addr with
      | .inst aid op => op = Opcode.alloca && instrIsInLoop F L aid
      | _ => false)

/-- Spec §4.1, general-value case: hoisting is blocked exactly when the loop
contains any store, or the address-defining instruction (id `aid`) is a
member of the loop, or the load's block fails to dominate some exit-edge
block. -/
def specGeneralBlocked (F : List Block) (dom : Nat → Nat → Bool) (L : Loop)
    (aid iParent : Nat) : Bool :=
  loopHasStore F L || instrIsInLoop F L aid || failsExitDominance dom L iParent

def childIds (li : Loop) : List Nat := li.subLoops.map Loop.id

/-- The bottom-up ordering property of one driver step, as a decidable check
on the `mLICM` invocation trace: a first segment consisting only of immediate
sub-loop ids in which every immediate sub-loop occurs, followed by a
non-empty run of the root loop's id. -/
def childrenBeforeRoot (li : Loop) (tr : List Nat) : Bool :=
  ((tr.takeWhile (fun x => decide (x ≠ li.id))).all
      (fun x => decide (x ∈ childIds li)))
  && ((tr.dropWhile (fun x => decide (x ≠ li.id))).all
      (fun x => decide (x = li.id)))
  && decide (tr.dropWhile (fun x => decide (x ≠ li.id)) ≠ [])
  && (li.subLoops.all
      (fun c => decide (c.id ∈ tr.takeWhile (fun x => decide (x ≠ li.id)))))

/-- Spec-side count for the amended C9: the number of top-level loops of each
non-empty function whose member blocks contain no Load. -/
def topLoadlessCount : List (List Block × List Loop) → Nat
  | [] => 0
  | (F, loops) :: rest =>
    (if F.isEmpty then 0
     else loops.countP (fun li => !(loopContainsLoad F li))) + topLoadlessCount rest

/-! Concrete programs used as counterexamples, failing inputs and witnesses. -/

/-- A dominator relation that affirms every query. -/
def domTrue : Nat → Nat → Bool := fun _ _ => true

/-- C1 failing input: preheader block 0 `[t0]`, body block 1
`[x = load @G, t1(x)]`; the loop `{1}` with preheader 0.  `t1` is an in-loop
user of `x` (an impure terminator-like instruction). -/
def exT0 : Instr := ⟨1, Opcode.other, [], false, false⟩

def exX : Instr := ⟨10, Opcode.load, [Value.const 100], false, false⟩

def exT1 : Instr := ⟨11, Opcode.other, [Value.inst 10 Opcode.load], false, false⟩

def exF1 : List Block := [⟨0, [exT0]⟩, ⟨1, [exX, exT1]⟩]

def exL1 : Loop := .mk 7 [1] [] (some 0) [1]

/-- The body after the pass: the clone (id 12) sits before the preheader
terminator and `t1` now uses it; the original load is gone. -/
def exXClone : Instr := ⟨12, Opcode.load, [Value.const 100], false, false⟩

def exT1After : Instr := ⟨11, Opcode.other, [Value.inst 12 Opcode.load], false, false⟩

def exF1After : List Block := [⟨0, [exXClone, exT0]⟩, ⟨1, [exT1After]⟩]

/-- C2 failing input: a loop over block 1 with no preheader, holding the
legal load `x` (same shape as `exX`). -/
def exLnp : Loop := .mk 5 [1] [] none [1]

def exF2a : List Block := [⟨1, [exX, exT1]⟩]

def exT1NoUse : Instr := ⟨11, Opcode.other, [], false, false⟩

def exF2b : List Block := [⟨1, [exT1NoUse]⟩]

/-- C8 counterexample: a three-deep nest P(id 10) ⊃ B(id 11) ⊃ C(id 12) over
blocks 1/2/3 (block 0 is P's preheader); every instruction is an impure
terminator, so every `mLICM` pass is a no-op returning false. -/
def exT2 : Instr := ⟨2, Opcode.other, [], false, false⟩

def exT3 : Instr := ⟨3, Opcode.other, [], false, false⟩

def exT4 : Instr := ⟨4, Opcode.other, [], false, false⟩

def exF8 : List Block := [⟨0, [exT0]⟩, ⟨1, [exT2]⟩, ⟨2, [exT3]⟩, ⟨3, [exT4]⟩]

def exC8l : Loop := .mk 12 [3] [] (some 2) []

def exB8 : Loop := .mk 11 [2, 3] [exC8l] (some 1) []

def exP8 : Loop := .mk 10 [1, 2, 3] [exB8] (some 0) []

/-- C9 counterexample: root loop P9 (id 20, blocks 1 and 2) holds a load in
block 1; its child C9 (id 21, block 2 only) holds no load. -/
def exLd9 : Instr := ⟨5, Opcode.load, [Value.const 300], false, false⟩

def exF9 : List Block := [⟨1, [exLd9, exT2]⟩, ⟨2, [exT3]⟩]

def exC9l : Loop := .mk 21 [2] [] (some 1) []

def exP9 : Loop := .mk 20 [1, 2] [exC9l] (some 0) []

/-- C10 inputs: a non-volatile load whose address is the function argument 0,
in a call-free loop over block 1; `exF10` also holds a store (to a constant
address), `exF10b` holds no store. -/
def exLd10 : Instr := ⟨40, Opcode.load, [Value.arg 0], false, false⟩

def exSt10 : Instr := ⟨41, Opcode.store, [Value.const 5, Value.const 6], false, false⟩

def exF10 : List Block := [⟨1, [exLd10, exSt10, exT2]⟩]

def exF10b : List Block := [⟨1, [exLd10, exT2]⟩]

def exL10 : Loop := .mk 30 [1] [] (some 0) [1]

/-- C3 witness input: a load from the constant address 200 in a loop that
also stores through the function argument 9 (an ambiguous store). -/
def exLd3 : Instr := ⟨50, Opcode.load, [Value.const 200], false, false⟩

def exStAmb : Instr := ⟨51, Opcode.store, [Value.const 1, Value.arg 9], false, false⟩

def exF3 : List Block := [⟨0, [exT0]⟩, ⟨1, [exLd3, exStAmb, exT2]⟩]

def exL3 : Loop := .mk 40 [1] [] (some 0) [1]

/-- C4 witness input: a load through the result of instruction 60, which
lives in the preheader (outside the loop); the loop has no stores. -/
def exDef60 : Instr := ⟨60, Opcode.other, [], false, false⟩

def exLd4 : Instr := ⟨61, Opcode.load, [Value.inst 60 Opcode.other], false, false⟩

def exF4 : List Block := [⟨0, [exDef60, exT0]⟩, ⟨1, [exLd4, exT2]⟩]

def exL4 : Loop := .mk 41 [1] [] (some 0) [1]

/-- C5 witness input: a volatile load in a call-free loop. -/
def exLdVol : Instr := ⟨70, Opcode.load, [Value.const 100], true, false⟩

def exF5 : List Block := [⟨1, [exLdVol, exT2]⟩]

def exL5 : Loop := .mk 42 [1] [] (some 0) [1]

def exSt5 : MState := ⟨exF5, g0, 99, false, false⟩

/-- The global state after one `mLICM` pass over the C1 program. -/
def gC1 : GState := { g0 with numLoopsNoStores := 1, licmLoadHoist := 1, prevLoop := some 7 }

/-- The per-pass statistics discipline: relative to a base state, the guarded
`NumLoopsWithCall` counter has been bumped at most once (and only together
with `prev` becoming this loop), and `NumLoopsNoStores` and `prevLoop` are
untouched. -/
def statOk (lid : Nat) (gA gB : GState) : Prop :=
  ((gB.numLoopsWithCall = gA.numLoopsWithCall ∧ gB.prev = gA.prev) ∨
    (gB.numLoopsWithCall = gA.numLoopsWithCall + 1 ∧ gB.prev = some lid ∧
      gA.prev ≠ some lid)) ∧
  gB.numLoopsNoStores = gA.numLoopsNoStores ∧
  gB.prevLoop = gA.prevLoop

/-! Helper lemmas. -/

theorem scanStoresStatic_fst (addr : Value) (l : List Instr) (hs : Bool) :
    (scanStoresStatic addr l hs).1 = l.any (isExactAliasStore addr) := by
  induction l generalizing hs with
  | nil => simp [scanStoresStatic]
  | cons i rest ih =>
    simp only [scanStoresStatic, List.any_cons, isExactAliasStore]
    by_cases hst : i.isStore = true
    · by_cases heq : storeDest i = addr
      · simp [hst, heq]
      · simp [hst, heq, ih]
    · simp [Bool.eq_false_iff.mpr hst, hst, ih]

theorem scanStoresStatic_snd (addr : Value) (l : List Instr) (hs : Bool)
    (h : l.any (isExactAliasStore addr) = false) :
    (scanStoresStatic addr l hs).2 = (hs || l.any isAmbiguousStore) := by
  induction l generalizing hs with
  | nil => simp [scanStoresStatic]
  | cons i rest ih =>
    simp only [List.any_cons, Bool.or_eq_false_iff, isExactAliasStore] at h
    obtain ⟨h1, h2⟩ := h
    simp only [scanStoresStatic, List.any_cons, isAmbiguousStore]
    by_cases hst : i.isStore = true
    · have heq : ¬(storeDest i = addr) := by
        intro hc
        simp [hst, hc] at h1
      by_cases hamb : isStaticV (storeDest i) = true
      · simp [hst, heq, hamb, ih _ h2]
      · simp [hst, heq, Bool.eq_false_iff.mpr hamb, ih _ h2]
    · simp [hst, Bool.eq_false_iff.mpr hst, ih _ h2]

/-- C3: for every non-volatile Load in a call-free loop whose address operand
is statically resolved (a constant or an alloca slot), the legality check
returns false exactly when some store in the loop's full block set targets
the load's address itself or the address is an alloca defined inside the
loop; an ambiguous store is only recorded in the `hasAStore` observation and
never blocks; in all remaining cases the check accepts and the observation
records exactly whether an ambiguous store was seen. -/
theorem canMove_static_char (F : List Block) (dom : Nat → Nat → Bool)
    (L : Loop) (I : Instr) (p : Nat) (g : GState)
    (_hop : I.isLoad = true)
    (hvol : I.volatileFlag = false)
    (hcall : loopHasCall F L = false)
    (hstatic : isStaticV (loadAddr I) = true) :
    Except.map Prod.fst (canMoveOutOfLoop F dom L I p g)
      = Except.ok (!(specStaticBlocked F L (loadAddr I)))
    ∧ (specStaticBlocked F L (loadAddr I) = false →
        canMoveOutOfLoop F dom L I p g
          = Except.ok (true, { g with hasAStore := g.hasAStore || anyAmbiguousStore F L })) := by
  rcases hscan : scanStoresStatic (loadAddr I) (loopInstrs F L) g.hasAStore with ⟨b1, hs⟩
  have hfst := scanStoresStatic_fst (loadAddr I) (loopInstrs F L) g.hasAStore
  rw [hscan] at hfst
  cases b1 with
  | true =>
    have hfst1 : (loopInstrs F L).any (isExactAliasStore (loadAddr I)) = true := by
      simpa using hfst.symm
    have hblocked : specStaticBlocked F L (loadAddr I) = true := by
      simp [specStaticBlocked, hfst1]
    refine ⟨?_, ?_⟩
    · simp [canMoveOutOfLoop, hvol, hcall, hstatic, hscan, hblocked, Except.map]
    · intro hc; rw [hblocked] at hc; cases hc
  | false =>
    have hfst0 : (loopInstrs F L).any (isExactAliasStore (loadAddr I)) = false := by
      simpa using hfst.symm
    have hsnd := scanStoresStatic_snd (loadAddr I) (loopInstrs F L) g.hasAStore hfst0
    rw [hscan] at hsnd
    have hsnd1 : hs = (g.hasAStore || anyAmbiguousStore F L) := by
      simpa [anyAmbiguousStore] using hsnd
    rcases haddr : loadAddr I with k | ⟨aid, op⟩ | k
    · -- constant address: the alloca sub-check is skipped
      rw [haddr] at hfst0 hscan
      have hblocked : specStaticBlocked F L (Value.const k) = false := by
        simp [specStaticBlocked, hfst0]
      refine ⟨?_, fun _ => ?_⟩
      · simp [canMoveOutOfLoop, hvol, hcall, hstatic, haddr, hscan, hblocked,
          isStaticV, isConstantV, isAllocaV, Except.map]
      · simp [canMoveOutOfLoop, hvol, hcall, hstatic, haddr, hscan,
          isStaticV, isConstantV, isAllocaV, hsnd1]
    · -- instruction address: statically resolved means alloca
      have hop2 : op = Opcode.alloca := by
        rw [haddr] at hstatic
        simpa [isStaticV, isConstantV, isAllocaV] using hstatic
      subst hop2
      rw [haddr] at hfst0 hscan
      by_cases hin : instrIsInLoop F L aid = true
      · have hblocked :
            specStaticBlocked F L (Value.inst aid Opcode.alloca) = true := by
          simp [specStaticBlocked, hin]
        refine ⟨?_, ?_⟩
        · simp [canMoveOutOfLoop, hvol, hcall, hstatic, haddr, hscan, hblocked,
            isStaticV, isConstantV, isAllocaV, hin, Except.map]
        · intro hc; rw [hblocked] at hc; cases hc
      · have hin2 : instrIsInLoop F L aid = false := Bool.eq_false_iff.mpr hin
        have hblocked :
            specStaticBlocked F L (Value.inst aid Opcode.alloca) = false := by
          simp [specStaticBlocked, hin2, hfst0]
        refine ⟨?_, fun _ => ?_⟩
        · simp [canMoveOutOfLoop, hvol, hcall, hstatic, haddr, hscan, hblocked,
            isStaticV, isConstantV, isAllocaV, hin2, Except.map]
        · simp [canMoveOutOfLoop, hvol, hcall, hstatic, haddr, hscan,
            isStaticV, isConstantV, isAllocaV, hin2, hsnd1]
    · -- argument address: contradicts static resolution
      rw [haddr] at hstatic
      simp [isStaticV, isConstantV, isAllocaV] at hstatic

/-- C4: for every non-volatile Load in a call-free loop whose address is a
general value defined by instruction `aid` (not a constant, not an alloca),
the legality check rejects exactly when the loop contains some store, or the
address-defining instruction is a member of the loop, or the load's block
fails to dominate some exit-edge block; otherwise it accepts. -/
theorem canMove_general_char (F : List Block) (dom : Nat → Nat → Bool)
    (L : Loop) (I : Instr) (p : Nat) (g : GState) (aid : Nat) (op : Opcode)
    (_hop : I.isLoad = true)
    (hvol : I.volatileFlag = false)
    (hcall : loopHasCall F L = false)
    (haddr : loadAddr I = Value.inst aid op)
    (hna : op ≠ Opcode.alloca) :
    Except.map Prod.fst (canMoveOutOfLoop F dom L I p g)
      = Except.ok (!(specGeneralBlocked F dom L aid p)) := by
  have hstatic : isStaticV (Value.inst aid op) = false := by
    simp [isStaticV, isConstantV, isAllocaV, hna]
  by_cases hstore : loopHasStore F L = true
  · simp [canMoveOutOfLoop, hvol, hcall, haddr, hstatic, hstore,
      specGeneralBlocked, Except.map]
  · have hstore0 : loopHasStore F L = false := Bool.eq_false_iff.mpr hstore
    by_cases hin : instrIsInLoop F L aid = true
    · simp [canMoveOutOfLoop, hvol, hcall, haddr, hstatic, hstore0, hin,
        specGeneralBlocked, Except.map]
    · have hin0 : instrIsInLoop F L aid = false := Bool.eq_false_iff.mpr hin
      by_cases hdom : failsExitDominance dom L p = true
      · simp [canMoveOutOfLoop, hvol, hcall, haddr, hstatic, hstore0, hin0,
          hdom, specGeneralBlocked, Except.map]
      · have hdom0 : failsExitDominance dom L p = false :=
          Bool.eq_false_iff.mpr hdom
        simp [canMoveOutOfLoop, hvol, hcall, haddr, hstatic, hstore0, hin0,
          hdom0, specGeneralBlocked, Except.map]

/-- C10 (amended): for a non-volatile load in a call-free, store-free loop
whose address is neither a constant, nor an alloca, nor any instruction
result (a function argument), the general-value branch reaches the unchecked
`cast<Instruction>` and the check does not return a boolean. -/
theorem canMove_nonInstr_addr_crashes (F : List Block)
    (dom : Nat → Nat → Bool) (L : Loop) (I : Instr) (p a : Nat) (g : GState)
    (_hop : I.isLoad = true)
    (hvol : I.volatileFlag = false)
    (hcall : loopHasCall F L = false)
    (hstore : loopHasStore F L = false)
    (haddr : loadAddr I = Value.arg a) :
    canMoveOutOfLoop F dom L I p g = Except.error Crash.castNonInstruction := by
  simp [canMoveOutOfLoop, hvol, hcall, hstore, haddr, isStaticV, isConstantV,
    isAllocaV]

/-- Branch analysis of `canMoveOutOfLoop`'s state effect: a successful run
either only rewrites the `hasAStore` observation, or performs exactly the
guarded `NumLoopsWithCall` update (which requires `prev ≠ L` and leaves
`prev = L`). -/
theorem canMove_state_cases (F : List Block) (dom : Nat → Nat → Bool)
    (L : Loop) (I : Instr) (p : Nat) (g : GState) (b : Bool) (g1 : GState)
    (h : canMoveOutOfLoop F dom L I p g = Except.ok (b, g1)) :
    (∃ hs, g1 = { g with hasAStore := hs }) ∨
    (g1 = { g with prev := some L.id, numLoopsWithCall := g.numLoopsWithCall + 1 }
      ∧ g.prev ≠ some L.id) := by
  simp only [canMoveOutOfLoop] at h
  repeat' split at h
  all_goals try (exact Except.noConfusion h)
  all_goals
    (simp only [Except.ok.injEq, Prod.mk.injEq] at h
     obtain ⟨hb, hg⟩ := h
     subst hg
     first
       | exact Or.inl ⟨_, rfl⟩
       | exact Or.inr ⟨rfl, by assumption⟩)

/-- C5: for every loop and every Load, the legality check rejects whenever
the load is volatile or the loop's full transitive block set contains a Call;
consequently the engine's per-instruction step leaves the body, the
hoisted-load counter and the re-iteration flags untouched for such a load. -/
theorem canMove_volatile_or_call_rejects (dom : Nat → Nat → Bool) (L : Loop)
    (I : Instr) (st : MState) (bid : Nat)
    (hop : I.isLoad = true)
    (h : I.volatileFlag = true ∨ loopHasCall st.F L = true)
    (hfind : findInstrInBlock st.F bid I.id = some I) :
    Except.map Prod.fst (canMoveOutOfLoop st.F dom L I bid st.g) = Except.ok false
    ∧ Except.map (fun s => (s.F, s.g.licmLoadHoist, s.mRetVal, s.isOpt))
        (processInstr dom L bid I.id st)
      = Except.ok (st.F, st.g.licmLoadHoist, st.mRetVal, st.isOpt) := by
  rcases h with hv | hc
  · refine ⟨?_, ?_⟩
    · simp [canMoveOutOfLoop, hv, Except.map]
    · simp [processInstr, hfind, hop, canMoveOutOfLoop, hv, Except.map]
  · by_cases hv : I.volatileFlag = true
    · refine ⟨?_, ?_⟩
      · simp [canMoveOutOfLoop, hv, Except.map]
      · simp [processInstr, hfind, hop, canMoveOutOfLoop, hv, Except.map]
    · have hv0 : I.volatileFlag = false := Bool.eq_false_iff.mpr hv
      by_cases hp : st.g.prev ≠ some L.id
      · refine ⟨?_, ?_⟩
        · simp [canMoveOutOfLoop, hv0, hc, hp, Except.map]
        · simp [processInstr, hfind, hop, canMoveOutOfLoop, hv0, hc, hp,
            Except.map]
      · refine ⟨?_, ?_⟩
        · simp [canMoveOutOfLoop, hv0, hc, hp, Except.map]
        · simp [processInstr, hfind, hop, canMoveOutOfLoop, hv0, hc, hp,
            Except.map]

theorem statOk_refl (lid : Nat) (gA : GState) : statOk lid gA gA :=
  ⟨Or.inl ⟨rfl, rfl⟩, rfl, rfl⟩

theorem statOk_trans (lid : Nat) (gA gB gC : GState)
    (h1 : statOk lid gA gB) (h2 : statOk lid gB gC) : statOk lid gA gC := by
  obtain ⟨hc1, hn1, hp1⟩ := h1
  obtain ⟨hc2, hn2, hp2⟩ := h2
  refine ⟨?_, hn2.trans hn1, hp2.trans hp1⟩
  rcases hc1 with ⟨ha1, hb1⟩ | ⟨ha1, hb1, hx1⟩
  · rcases hc2 with ⟨ha2, hb2⟩ | ⟨ha2, hb2, hx2⟩
    · exact Or.inl ⟨ha2.trans ha1, hb2.trans hb1⟩
    · exact Or.inr ⟨by rw [ha2, ha1], hb2, by rw [← hb1]; exact hx2⟩
  · rcases hc2 with ⟨ha2, hb2⟩ | ⟨ha2, hb2, hx2⟩
    · exact Or.inr ⟨by rw [ha2, ha1], hb2.trans hb1, hx1⟩
    · exact absurd hb1 hx2

theorem canMove_statOk (F : List Block) (dom : Nat → Nat → Bool) (L : Loop)
    (I : Instr) (p : Nat) (g : GState) (b : Bool) (g1 : GState)
    (h : canMoveOutOfLoop F dom L I p g = Except.ok (b, g1)) :
    statOk L.id g g1 := by
  rcases canMove_state_cases F dom L I p g b g1 h with ⟨hs, rfl⟩ | ⟨rfl, hx⟩
  · exact statOk_refl L.id _
  · exact ⟨Or.inr ⟨rfl, rfl, hx⟩, rfl, rfl⟩

theorem hoistLoad_g (li : Loop) (inst : Instr) (bid : Nat) (g1 : GState)
    (st st1 : MState) (h : hoistLoad li inst bid g1 st = Except.ok st1) :
    st1.g = { g1 with licmLoadHoist := g1.licmLoadHoist + 1 } := by
  unfold hoistLoad at h
  split at h
  · cases h
  · cases h; rfl

theorem processInstr_statOk (dom : Nat → Nat → Bool) (li : Loop)
    (bid iid : Nat) (st st1 : MState)
    (h : processInstr dom li bid iid st = Except.ok st1) :
    statOk li.id st.g st1.g := by
  unfold processInstr at h
  split at h
  · cases h; exact statOk_refl _ _
  · split at h
    · -- load branch
      split at h
      · cases h
      · rename_i legal g1 heq
        have hbase := canMove_statOk _ dom li _ bid st.g legal g1 heq
        split at h
        · have hg := hoistLoad_g li _ bid g1 st st1 h
          rw [hg]
          exact statOk_trans _ _ _ _ hbase ⟨Or.inl ⟨rfl, rfl⟩, rfl, rfl⟩
        · cases h; exact hbase
    · split at h
      · cases h; exact statOk_refl _ _
      · -- other opcode: hoist primitive and LICMBasic do not touch the fields
        split at h
        split at h
        · split at h
          · cases h
            exact ⟨Or.inl ⟨rfl, rfl⟩, rfl, rfl⟩
          · cases h; exact statOk_refl _ _
        · cases h; exact statOk_refl _ _

theorem processList_statOk (dom : Nat → Nat → Bool) (li : Loop) (bid : Nat)
    (l : List Nat) (st st1 : MState)
    (h : processList dom li bid l st = Except.ok st1) :
    statOk li.id st.g st1.g := by
  induction l generalizing st with
  | nil =>
    simp only [processList] at h
    cases h
    exact statOk_refl _ _
  | cons iid rest ih =>
    unfold processList at h
    split at h
    · cases h
    · rename_i st2 heq
      exact statOk_trans _ _ _ _
        (processInstr_statOk dom li bid iid st st2 heq) (ih st2 h)

theorem mLICMBlocks_statOk (dom : Nat → Nat → Bool) (li : Loop)
    (l : List Nat) (st st1 : MState)
    (h : mLICMBlocks dom li l st = Except.ok st1) :
    statOk li.id st.g st1.g := by
  induction l generalizing st with
  | nil =>
    simp only [mLICMBlocks] at h
    cases h
    exact statOk_refl _ _
  | cons bid rest ih =>
    unfold mLICMBlocks at h
    split at h
    · exact ih st h
    · split at h
      · cases h
      · rename_i st2 heq
        exact statOk_trans _ _ _ _
          (processList_statOk dom li bid _ st st2 heq) (ih st2 h)

/-- C6: the "loop contains a call" counter and the store-observation counter
are each updated at most once per `mLICM` analysis pass over a loop, and the
store-observation state is scoped to the single pass: the verdicts and
statistics of a pass are independent of whatever `hasAStore` value earlier
loops left behind. -/
theorem mLICM_stats_once_per_pass (dom : Nat → Nat → Bool) (li : Loop)
    (F : List Block) (g : GState) (b ret : Bool) (F1 : List Block)
    (g1 : GState)
    (hres : mLICM dom li F g = Except.ok (ret, F1, g1)) :
    g1.numLoopsWithCall ≤ g.numLoopsWithCall + 1
    ∧ g1.numLoopsNoStores ≤ g.numLoopsNoStores + 1
    ∧ mLICM dom li F { g with hasAStore := b } = mLICM dom li F g := by
  have hmain : g1.numLoopsWithCall ≤ g.numLoopsWithCall + 1
      ∧ g1.numLoopsNoStores ≤ g.numLoopsNoStores + 1 := by
    simp only [mLICM] at hres
    split at hres
    · cases hres
    · rename_i st heq
      have hst := mLICMBlocks_statOk dom li li.blockIds _ st heq
      obtain ⟨hcall, hnost, -⟩ := hst
      have e1 : ({ g with hasAStore := false } : GState).numLoopsWithCall
          = g.numLoopsWithCall := rfl
      have e2 : ({ g with hasAStore := false } : GState).numLoopsNoStores
          = g.numLoopsNoStores := rfl
      rw [e2] at hnost
      split at hres
      · split at hres
        · cases hres
          constructor
          · rcases hcall with ⟨h1, -⟩ | ⟨h1, -, -⟩ <;> rw [e1] at h1 <;>
              simp [h1]
          · simp [hnost]
        · cases hres
          constructor
          · rcases hcall with ⟨h1, -⟩ | ⟨h1, -, -⟩ <;> rw [e1] at h1 <;>
              simp [h1]
          · simp [hnost]
      · cases hres
        constructor
        · rcases hcall with ⟨h1, -⟩ | ⟨h1, -, -⟩ <;> rw [e1] at h1 <;>
            simp [h1]
        · simp [hnost]
  exact ⟨hmain.1, hmain.2, rfl⟩

/-- C7: a root loop without a preheader is skipped entirely: the driver
increments `LICMNoPreheader` by exactly one, invokes `mLICM` on no loop (its
own or a child's, so zero hoists happen under it), and leaves the function
body and every other piece of state unchanged. -/
theorem driver_skips_no_preheader (dom : Nat → Nat → Bool) (fuel : Nat)
    (li : Loop) (F : List Block) (g : GState)
    (h : li.preheaderId = none) :
    processTopLoop dom fuel li F g
      = Except.ok (F, { g with licmNoPreheader := g.licmNoPreheader + 1 }, []) := by
  unfold processTopLoop
  rw [h]

theorem takeWhile_append_of_all (p : Nat → Bool) (l1 l2 : List Nat)
    (h : ∀ x ∈ l1, p x = true) :
    (l1 ++ l2).takeWhile p = l1 ++ l2.takeWhile p := by
  induction l1 with
  | nil => simp
  | cons a l ih =>
    have ha := h a (List.mem_cons_self a l)
    simp only [List.cons_append, List.takeWhile_cons, ha, if_true]
    rw [ih (fun x hx => h x (List.mem_cons_of_mem a hx))]

theorem dropWhile_append_of_all (p : Nat → Bool) (l1 l2 : List Nat)
    (h : ∀ x ∈ l1, p x = true) :
    (l1 ++ l2).dropWhile p = l2.dropWhile p := by
  induction l1 with
  | nil => simp
  | cons a l ih =>
    have ha := h a (List.mem_cons_self a l)
    simp only [List.cons_append, List.dropWhile_cons, ha, if_true]
    exact ih (fun x hx => h x (List.mem_cons_of_mem a hx))

theorem repeatMLICM_pos (dom : Nat → Nat → Bool) (li : Loop) (fuel : Nat)
    (F : List Block) (g : GState) (F1 : List Block) (g1 : GState) (n : Nat)
    (h : repeatMLICM dom li fuel F g = Except.ok (F1, g1, n)) : 1 ≤ n := by
  cases fuel with
  | zero =>
    unfold repeatMLICM at h
    split at h
    · cases h
    · cases h; exact Nat.le_refl 1
  | succ fuel1 =>
    unfold repeatMLICM at h
    split at h
    · cases h
    · split at h
      · split at h
        · cases h
        · cases h; exact Nat.le_add_left 1 _
      · cases h; exact Nat.le_refl 1

theorem processSubLoops_trace (dom : Nat → Nat → Bool) (fuel : Nat)
    (subs : List Loop) (F : List Block) (g : GState) (F1 : List Block)
    (g1 : GState) (tr : List Nat)
    (h : processSubLoops dom fuel subs F g = Except.ok (F1, g1, tr)) :
    (∀ x ∈ tr, x ∈ subs.map Loop.id) ∧ (∀ c ∈ subs, c.id ∈ tr) := by
  induction subs generalizing F g F1 g1 tr with
  | nil =>
    simp only [processSubLoops] at h
    cases h
    exact ⟨fun x hx => absurd hx (List.not_mem_nil x), fun c hc =>
      absurd hc (List.not_mem_nil c)⟩
  | cons sub rest ih =>
    simp only [processSubLoops] at h
    rcases heqr : repeatMLICM dom sub fuel F
        { g with numLoops := g.numLoops + 1 } with e | ⟨Fa, ga, n⟩
    · rw [heqr] at h; cases h
    · rw [heqr] at h
      simp only [] at h
      rcases heqs : processSubLoops dom fuel rest Fa ga with e | ⟨Fb, gb, trb⟩
      · rw [heqs] at h; cases h
      · rw [heqs] at h
        simp only [Except.ok.injEq, Prod.mk.injEq] at h
        obtain ⟨-, -, htr⟩ := h
        subst htr
        obtain ⟨ih1, ih2⟩ := ih _ _ _ _ _ heqs
        have hn := repeatMLICM_pos dom sub fuel F _ Fa ga n heqr
        constructor
        · intro x hx
          rcases List.mem_append.mp hx with hx1 | hx2
          · simp only [List.eq_of_mem_replicate hx1, List.map_cons]
            exact List.mem_cons_self _ _
          · exact List.mem_cons_of_mem _ (ih1 x hx2)
        · intro c hc
          rcases List.mem_cons.mp hc with rfl | hc2
          · refine List.mem_append.mpr (Or.inl ?_)
            rcases n with - | m
            · cases hn
            · exact List.mem_replicate.mpr ⟨Nat.succ_ne_zero m, rfl⟩
          · exact List.mem_append.mpr (Or.inr (ih2 c hc2))

/-- C8 (amended): for every root loop with a preheader whose id differs from
its children ids, the driver first runs every immediate child loop to its own
repeat-until-fixed-point hoisting (each child is invoked at least once) and
only afterwards runs the root loop itself; deeper descendants receive no pass
of their own. -/
theorem driver_children_before_root (dom : Nat → Nat → Bool) (fuel : Nat)
    (li : Loop) (F : List Block) (g : GState) (p : Nat) (F2 : List Block)
    (g2 : GState) (tr : List Nat)
    (hp : li.preheaderId = some p)
    (hdist : li.id ∉ childIds li)
    (h : processTopLoop dom fuel li F g = Except.ok (F2, g2, tr)) :
    childrenBeforeRoot li tr = true := by
  simp only [processTopLoop, hp] at h
  rcases heqs : processSubLoops dom fuel li.subLoops F g with e | ⟨F1, g1, trs⟩
  · rw [heqs] at h; cases h
  · rw [heqs] at h
    simp only [] at h
    rcases heqr : repeatMLICM dom li fuel F1
        { g1 with numLoops := g1.numLoops + 1 } with e | ⟨Fb, gb, n⟩
    · rw [heqr] at h; cases h
    · rw [heqr] at h
      simp only [Except.ok.injEq, Prod.mk.injEq] at h
      obtain ⟨-, -, htr⟩ := h
      subst htr
      obtain ⟨hsub1, hsub2⟩ := processSubLoops_trace dom fuel li.subLoops F g
        F1 g1 trs heqs
      have hn := repeatMLICM_pos dom li fuel F1 _ Fb gb n heqr
      have hne : ∀ x ∈ trs, (fun x => decide (x ≠ li.id)) x = true := by
        intro x hx
        have : x ∈ childIds li := hsub1 x hx
        have hxne : x ≠ li.id := by
          intro hxe
          exact hdist (hxe ▸ this)
        simp [hxne]
      have htake : (trs ++ List.replicate n li.id).takeWhile
          (fun x => decide (x ≠ li.id)) = trs := by
        rw [takeWhile_append_of_all _ _ _ hne]
        rcases n with - | m
        · cases hn
        · simp [List.replicate_succ]
      have hdrop : (trs ++ List.replicate n li.id).dropWhile
          (fun x => decide (x ≠ li.id)) = List.replicate n li.id := by
        rw [dropWhile_append_of_all _ _ _ hne]
        rcases n with - | m
        · cases hn
        · simp [List.replicate_succ]
      unfold childrenBeforeRoot
      rw [htake, hdrop]
      simp only [Bool.and_eq_true, List.all_eq_true, decide_eq_true_eq]
      refine ⟨⟨⟨fun x hx => hsub1 x hx, fun x hx => List.eq_of_mem_replicate hx⟩, ?_⟩,
        fun c hc => hsub2 c hc⟩
      rcases n with - | m
      · cases hn
      · simp [List.replicate_succ]

theorem numStatsLoops_count (F : List Block) (loops : List Loop) (g : GState) :
    numStatsLoops F loops g
      = { g with numLoopsNoLoads :=
            g.numLoopsNoLoads + loops.countP (fun li => !(loopContainsLoad F li)) } := by
  induction loops generalizing g with
  | nil => simp [numStatsLoops, List.countP_nil]
  | cons li rest ih =>
    unfold numStatsLoops
    by_cases hl : loopContainsLoad F li = true
    · rw [List.countP_cons]
      simp [hl, ih]
    · have hl0 : loopContainsLoad F li = false := Bool.eq_false_iff.mpr hl
      rw [List.countP_cons]
      simp only [hl0, Bool.not_false, if_true, ih]
      congr 1
      omega

/-- C9 (amended): the observational statistics pass increments the "loops
without any load" counter by exactly one for every top-level loop of every
non-empty function whose member blocks contain no Load (child loops are not
separately counted), changes nothing else, and by construction reads the
module without mutating it. -/
theorem numStats_counts_toplevel (funcs : List (List Block × List Loop))
    (g : GState) :
    numStats funcs g
      = { g with numLoopsNoLoads := g.numLoopsNoLoads + topLoadlessCount funcs } := by
  induction funcs generalizing g with
  | nil => simp [numStats, topLoadlessCount]
  | cons fp rest ih =>
    rcases fp with ⟨F, loops⟩
    unfold numStats topLoadlessCount
    by_cases hF : F.isEmpty = true
    · simp [hF, ih]
    · have hF0 : F.isEmpty = false := Bool.eq_false_iff.mpr hF
      simp only [hF0, Bool.false_eq_true, if_false, numStatsLoops_count, ih]
      congr 1
      omega

/-- C1: on the failing input (loop `{block 1}` with preheader block 0,
holding `x = load @G` whose result the in-loop terminator uses), one `mLICM`
pass clones the load into the preheader, redirects the use, erases the
original and bumps `LICMLoadHoist` — but returns false, although the load's
result was consumed inside the loop right before the redirection: the
source's user scan runs only after `replaceAllUsesWith`/`eraseFromParent`,
when the original's use list is already empty. -/
theorem mLICM_load_hoist_returns_false :
    mLICM domTrue exL1 exF1 g0
      = Except.ok (false, exF1After,
          { g0 with numLoopsNoStores := 1, licmLoadHoist := 1, prevLoop := some 7 })
    ∧ anyUserInLoop exF1 exL1 10 = true
    ∧ Except.map Prod.fst (canMoveOutOfLoop exF1 domTrue exL1 exX 1 g0)
      = Except.ok true := by
  exact ⟨by rfl, by rfl, by rfl⟩

/-- C2: handed a child loop without a preheader, the engine does not fail
fast: with a legality-accepted load it reaches the hoist action and
dereferences the null `getLoopPreheader()` result (the modelled crash), and
with no accepted load it silently runs to completion without any precondition
check. -/
theorem mLICM_null_preheader_deref :
    mLICM domTrue exLnp exF2a g0 = Except.error Crash.nullPreheader
    ∧ Except.map Prod.fst (canMoveOutOfLoop exF2a domTrue exLnp exX 1 g0)
      = Except.ok true
    ∧ mLICM domTrue exLnp exF2b g0
      = Except.ok (false, exF2b, { g0 with prevLoop := some 5 }) := by
  exact ⟨by rfl, by rfl, by rfl⟩

/-- C8 counterexample: in the three-deep nest P ⊃ B ⊃ C the driver's
invocation trace for root P is `[11, 10]` — immediate child B then P — while
the grandchild C (id 12) is a descendant loop that never receives a hoisting
pass of its own. -/
theorem claim_C8_counterexample :
    processTopLoop domTrue 5 exP8 exF8 g0
      = Except.ok (exF8, { g0 with numLoops := 2, prevLoop := some 10 }, [11, 10])
    ∧ (12 : Nat) ∈ descendantIds exP8
    ∧ (12 : Nat) ∉ ([11, 10] : List Nat) := by
  exact ⟨by rfl, by decide, by decide⟩

/-- C9 counterexample: the loop forest `[P9 ⊃ C9]` contains exactly one loop
without any load (the child C9), yet the statistics pass changes nothing: it
only visits top-level loops, and P9's blocks contain a load. -/
theorem claim_C9_counterexample :
    numStats [(exF9, [exP9])] g0 = g0
    ∧ (allLoopsOfList [exP9]).countP
        (fun li => !(loopContainsLoad exF9 li)) = 1 := by
  exact ⟨by rfl, by rfl⟩

/-- C10 counterexample: a non-volatile load whose address is a function
argument (not a constant, not an alloca, not an instruction result) inside a
call-free loop that contains a store: the check returns the boolean false —
it does not reach the undefined cast, contradicting the claim that it
returns no boolean for every such input. -/
theorem claim_C10_counterexample :
    canMoveOutOfLoop exF10 domTrue exL10 exLd10 1 g0
      = Except.ok (false, { g0 with hasAStore := true })
    ∧ loadAddr exLd10 = Value.arg 0
    ∧ exLd10.volatileFlag = false
    ∧ loopHasCall exF10 exL10 = false := by
  exact ⟨by rfl, by rfl, by rfl, by rfl⟩

/-- Witness for C3 at a concrete input: constant-address load, one ambiguous
store in the loop, no exact-match store. -/
theorem canMove_static_char_witness :
    Except.map Prod.fst (canMoveOutOfLoop exF3 domTrue exL3 exLd3 1 g0)
      = Except.ok (!(specStaticBlocked exF3 exL3 (loadAddr exLd3)))
    ∧ (specStaticBlocked exF3 exL3 (loadAddr exLd3) = false →
        canMoveOutOfLoop exF3 domTrue exL3 exLd3 1 g0
          = Except.ok (true,
              { g0 with hasAStore := g0.hasAStore || anyAmbiguousStore exF3 exL3 })) :=
  canMove_static_char exF3 domTrue exL3 exLd3 1 g0 (by rfl) (by rfl) (by rfl)
    (by rfl)

/-- Witness for C4 at a concrete input: load through an instruction-defined
address from outside the loop, store-free loop, trivially dominating exits. -/
theorem canMove_general_char_witness :
    Except.map Prod.fst (canMoveOutOfLoop exF4 domTrue exL4 exLd4 1 g0)
      = Except.ok (!(specGeneralBlocked exF4 domTrue exL4 60 1)) :=
  canMove_general_char exF4 domTrue exL4 exLd4 1 g0 60 Opcode.other (by rfl)
    (by rfl) (by rfl) (by rfl) (by decide)

/-- Witness for C5 at a concrete input: a volatile load is rejected and the
engine's step leaves body, counter and flags unchanged. -/
theorem canMove_volatile_or_call_rejects_witness :
    Except.map Prod.fst (canMoveOutOfLoop exF5 domTrue exL5 exLdVol 1 g0)
      = Except.ok false
    ∧ Except.map (fun s => (s.F, s.g.licmLoadHoist, s.mRetVal, s.isOpt))
        (processInstr domTrue exL5 1 70 exSt5)
      = Except.ok (exF5, 0, false, false) :=
  canMove_volatile_or_call_rejects domTrue exL5 exLdVol exSt5 1 (by rfl)
    (Or.inl (by rfl)) (by rfl)

/-- Witness for C6 at a concrete run of `mLICM` (the C1 program). -/
theorem mLICM_stats_once_per_pass_witness :
    gC1.numLoopsWithCall ≤ g0.numLoopsWithCall + 1
    ∧ gC1.numLoopsNoStores ≤ g0.numLoopsNoStores + 1
    ∧ mLICM domTrue exL1 exF1 { g0 with hasAStore := true }
      = mLICM domTrue exL1 exF1 g0 :=
  mLICM_stats_once_per_pass domTrue exL1 exF1 g0 true false exF1After gC1
    (by rfl)

/-- Witness for C7 at a concrete input: a preheader-less root loop holding a
hoistable load is skipped untouched. -/
theorem driver_skips_no_preheader_witness :
    processTopLoop domTrue 3 exLnp exF2a g0
      = Except.ok (exF2a,
          { g0 with licmNoPreheader := g0.licmNoPreheader + 1 }, []) :=
  driver_skips_no_preheader domTrue 3 exLnp exF2a g0 (by rfl)

/-- Witness for the amended C8 at a concrete input: on the nest P ⊃ B ⊃ C the
trace `[11, 10]` is child-segment-then-root. -/
theorem driver_children_before_root_witness :
    childrenBeforeRoot exP8 [11, 10] = true :=
  driver_children_before_root domTrue 5 exP8 exF8 g0 0 exF8
    { g0 with numLoops := 2, prevLoop := some 10 } [11, 10] (by rfl) (by decide)
    (by rfl)

/-- Witness for the amended C10 at a concrete input: same argument-addressed
load in the store-free variant of the loop reaches the undefined cast. -/
theorem canMove_nonInstr_addr_crashes_witness :
    canMoveOutOfLoop exF10b domTrue exL10 exLd10 1 g0
      = Except.error Crash.castNonInstruction :=
  canMove_nonInstr_addr_crashes exF10b domTrue exL10 exLd10 1 0 g0 (by rfl)
    (by rfl) (by rfl) (by rfl) (by rfl)

end LICM
